import Mathlib

/-!
Verification of the interrupt controller simulation
(source file Interrupt_Controller_Simulation.cpp): a shallow embedding
of the arbitration core (pending event store, mask registry, selection
scan, controller loop body, command dispatch, logging sink) together
with proofs of the specified properties.
-/

namespace InterruptSim

/-- Devices, with the numeric values of the C++ enumeration
`enum Device { PRINTER = 1, MOUSE = 2, KEYBOARD = 3 }` recorded by
`Device.val`. -/
inductive Device where
  | PRINTER
  | MOUSE
  | KEYBOARD
deriving DecidableEq, Repr

/-- Numeric value of the enum constant; the device comparison in the
scan (`pending[i].dev > best_dev`, line 129) compares these values. -/
def Device.val : Device → Nat
  | .PRINTER => 1
  | .MOUSE => 2
  | .KEYBOARD => 3

/-- `struct InterruptEvent { Device dev; long long seq; ... }` (lines
52-56).  The timestamp field plays no role in arbitration and is
omitted. -/
structure InterruptEvent where
  dev : Device
  seq : Nat
deriving DecidableEq, Repr

/-- The three mask flags `masked_keyboard`, `masked_mouse`,
`masked_printer` (lines 64-66). -/
structure Masks where
  masked_keyboard : Bool
  masked_mouse : Bool
  masked_printer : Bool
deriving DecidableEq, Repr

/-- The initial mask state: all three flags start `false`. -/
def noMasks : Masks := ⟨false, false, false⟩

/-- The mask test of the scan (lines 124-126):
`(d == KEYBOARD && masked_keyboard) || (d == MOUSE && masked_mouse) ||
(d == PRINTER && masked_printer)`. -/
def is_masked (m : Masks) (d : Device) : Bool :=
  (d == Device.KEYBOARD && m.masked_keyboard) ||
  (d == Device.MOUSE && m.masked_mouse) ||
  (d == Device.PRINTER && m.masked_printer)

/-- `device_name` (lines 82-89). -/
def device_name : Device → String
  | .KEYBOARD => "Keyboard"
  | .MOUSE => "Mouse"
  | .PRINTER => "Printer"

/-- The replacement test of the selection scan (line 129): candidate `e`
replaces the current best `b` exactly when
`e.dev > b.dev || (e.dev == b.dev && e.seq < b.seq)`. -/
def beats (e b : InterruptEvent) : Bool :=
  decide (b.dev.val < e.dev.val) || (e.dev == b.dev && decide (e.seq < b.seq))

/-- The linear scan of lines 118-134: walk the pending list keeping the
current best `(best_idx, best)` as accumulator (`none` models
`best_idx == -1`), skipping masked events, and replacing the best
exactly when the line-129 test fires.  `i` is the index of the head of
the remaining list in the original pending list. -/
def scanAux (m : Masks) (acc : Option (Nat × InterruptEvent)) (i : Nat) :
    List InterruptEvent → Option (Nat × InterruptEvent)
  | [] => acc
  | e :: rest =>
    if is_masked m e.dev then scanAux m acc (i + 1) rest
    else
      match acc with
      | none => scanAux m (some (i, e)) (i + 1) rest
      | some (bi, b) =>
        if beats e b then scanAux m (some (i, e)) (i + 1) rest
        else scanAux m (some (bi, b)) (i + 1) rest

/-- The whole selection scan: index and value of the chosen event, or
`none` when no unmasked pending event exists (`best_idx == -1` after the
loop, line 136). -/
def selectBest (m : Masks) (p : List InterruptEvent) :
    Option (Nat × InterruptEvent) :=
  scanAux m none 0 p

/-- The diagnostics of the all-masked branch (lines 140-148): one
"Interrupt Ignored (Masked)" line per masked pending event. -/
def maskedDiagnostics (m : Masks) (p : List InterruptEvent) : List String :=
  (p.filter (fun e => is_masked m e.dev)).map
    (fun e => device_name e.dev ++ " Interrupt Ignored (Masked)")

/-- The bounded re-poll of the all-masked branch:
`cv.wait_for(ul, chrono::milliseconds(200))` (line 150). -/
def maskedWaitTimeoutMs : Nat := 200

/-- Outcome of one pass of the controller loop body: exit of the loop
(line 113 or line 116), blocking in `cv.wait` (line 115), the all-masked
diagnostic-and-bounded-wait branch (lines 136-152), or extraction and
service of one event (lines 154-188). -/
inductive CtrlAction where
  | stopped
  | waited
  | maskedWait (diags : List String)
  | serviced (ev : InterruptEvent)
deriving DecidableEq, Repr

/-- One pass of `controller_thread` (lines 112-157).  `r1` is the value
of the atomic `running` flag read by the `while` condition (line 113);
`r2` is the value read inside the wait predicate (line 115) and the
break test (line 116) — the flag may flip between the two reads.
Returns the action taken and the pending list afterwards; the servicing
phase itself (lines 158-188) touches neither the pending list nor the
masks. -/
def controllerStep (r1 r2 : Bool) (m : Masks) (p : List InterruptEvent) :
    CtrlAction × List InterruptEvent :=
  if r1 = false then (.stopped, p)
  else if p = [] then
    if r2 = false then (.stopped, p) else (.waited, p)
  else
    match selectBest m p with
    | none => (.maskedWait (maskedDiagnostics m p), p)
    | some (j, b) => (.serviced b, p.eraseIdx j)

/-- `append_log` (lines 74-80): open the log file for append; when the
open succeeded (`if(f)`) write the line, otherwise do nothing.
`file_ok` models whether the `ofstream` opened; the function has no
error path, so the result is always `Except.ok`. -/
def append_log (file_ok : Bool) (log : List String) (line : String) :
    Except String (List String) :=
  if file_ok then Except.ok (log ++ [line]) else Except.ok log

/-- The shared-state mutations of a run, serialized by the arbitration
lock: an event insertion by a device thread, one selection pass by the
controller, or a mask command. -/
inductive Op where
  | insert (d : Device)
  | select
  | maskSet (d : Device) (v : Bool)
deriving DecidableEq, Repr

/-- The shared state (lines 59-68) plus two history lists: `inserted`
records every event ever pushed into `pending`, `serviced` every event
extracted for service. -/
structure TraceState where
  pending : List InterruptEvent
  masks : Masks
  global_seq : Nat
  inserted : List InterruptEvent
  serviced : List InterruptEvent
deriving DecidableEq, Repr

/-- The state at program start: empty pending list, all masks clear,
`global_seq = 0`. -/
def initState : TraceState := ⟨[], noMasks, 0, [], []⟩

/-- Event insertion by a device thread (lines 103-106):
`pending.push_back({dev, ++global_seq, ...})` under the lock; the new
event carries the pre-incremented counter. -/
def insertEvent (d : Device) (st : TraceState) : TraceState :=
  { st with
      global_seq := st.global_seq + 1,
      pending := st.pending ++ [⟨d, st.global_seq + 1⟩],
      inserted := st.inserted ++ [⟨d, st.global_seq + 1⟩] }

/-- One selection by the controller (lines 118-156): run the scan; when
it finds a best event, erase it at `best_idx` and record it as
serviced; when every pending event is masked nothing is removed. -/
def selectStep (st : TraceState) : TraceState :=
  match selectBest st.masks st.pending with
  | none => st
  | some (j, b) =>
    { st with
        pending := st.pending.eraseIdx j,
        serviced := st.serviced ++ [b] }

/-- A mask or unmask command (lines 200-213): set one flag. -/
def setMask (d : Device) (v : Bool) (st : TraceState) : TraceState :=
  match d with
  | .KEYBOARD => { st with masks := { st.masks with masked_keyboard := v } }
  | .MOUSE => { st with masks := { st.masks with masked_mouse := v } }
  | .PRINTER => { st with masks := { st.masks with masked_printer := v } }

def applyOp : Op → TraceState → TraceState
  | .insert d, st => insertEvent d st
  | .select, st => selectStep st
  | .maskSet d v, st => setMask d v st

/-- Run a whole sequence of shared-state mutations. -/
def runOps (ops : List Op) (st : TraceState) : TraceState :=
  ops.foldl (fun s op => applyOp op s) st

/-- Result of dispatching one console command in `user_input_thread`
(lines 196-228): the mask state, the `running` flag and the pending
list afterwards, whether the condition variable was signalled, and the
console output produced. -/
structure CmdResult where
  masks : Masks
  running : Bool
  pending : List InterruptEvent
  notified : Bool
  output : List String
deriving DecidableEq, Repr

/-- The command dispatch of `user_input_thread` (lines 196-228) for one
parsed command line: first token `token`, device argument `which`
(empty when absent).  Both `mask` and `unmask` call `cv.notify_one()`
after their inner if-else chain, also on an unknown device; `exit`
clears `running` and calls `cv.notify_all()`; `status` and the usage
fallback do not signal. -/
def handle_command (token which : String) (m : Masks) (running : Bool)
    (p : List InterruptEvent) : CmdResult :=
  if token = "mask" then
    if which = "k" then
      ⟨{ m with masked_keyboard := true }, running, p, true, ["Keyboard masked."]⟩
    else if which = "m" then
      ⟨{ m with masked_mouse := true }, running, p, true, ["Mouse masked."]⟩
    else if which = "p" then
      ⟨{ m with masked_printer := true }, running, p, true, ["Printer masked."]⟩
    else ⟨m, running, p, true, ["Unknown device. Use k/m/p."]⟩
  else if token = "unmask" then
    if which = "k" then
      ⟨{ m with masked_keyboard := false }, running, p, true, ["Keyboard unmasked."]⟩
    else if which = "m" then
      ⟨{ m with masked_mouse := false }, running, p, true, ["Mouse unmasked."]⟩
    else if which = "p" then
      ⟨{ m with masked_printer := false }, running, p, true, ["Printer unmasked."]⟩
    else ⟨m, running, p, true, ["Unknown device. Use k/m/p."]⟩
  else if token = "status" then
    ⟨m, running, p, false,
      ["Status:",
       "  Keyboard: " ++ (if m.masked_keyboard then "Masked" else "Unmasked"),
       "  Mouse:    " ++ (if m.masked_mouse then "Masked" else "Unmasked"),
       "  Printer:  " ++ (if m.masked_printer then "Masked" else "Unmasked"),
       "  Pending interrupts: " ++ toString p.length]⟩
  else if token = "exit" then
    ⟨m, false, p, true, ["Exiting..."]⟩
  else
    ⟨m, running, p, false, ["Commands: mask k|m|p, unmask k|m|p, status, exit"]⟩

/-- The two shared resources whose lock discipline the design
prescribes. -/
inductive Resource where
  | pendingSet
  | maskRegistry
deriving DecidableEq, Repr

/-- One textual access to the shared Pending Set (`pending`) or Mask
Registry (`masked_keyboard` / `masked_mouse` / `masked_printer`) in the
source: the function it occurs in, its line, whether it writes, and
whether the arbitration lock `mtx` is held there. -/
structure SharedAccess where
  func : String
  line : Nat
  resource : Resource
  isWrite : Bool
  holdsArbitrationLock : Bool
deriving DecidableEq, Repr

/-- Every access to the Pending Set or the Mask Registry in the source:
`device_thread` pushes under a `lock_guard` (lines 104-105);
`controller_thread` holds the unique_lock for the wait predicate
(line 115), the scan (lines 122-126), the all-masked diagnostics
(lines 140-144) and extraction (lines 155-156); the servicing phase
(lines 158-188, lock released) contains no access to either resource;
`user_input_thread` writes the mask flags with no lock whatsoever
(lines 202-204, 209-211) and reads masks and pending under a
`lock_guard` only in the `status` branch (lines 215-220). -/
def sharedAccesses : List SharedAccess :=
  [⟨"device_thread", 105, Resource.pendingSet, true, true⟩,
   ⟨"controller_thread", 115, Resource.pendingSet, false, true⟩,
   ⟨"controller_thread", 122, Resource.pendingSet, false, true⟩,
   ⟨"controller_thread", 123, Resource.pendingSet, false, true⟩,
   ⟨"controller_thread", 124, Resource.maskRegistry, false, true⟩,
   ⟨"controller_thread", 125, Resource.maskRegistry, false, true⟩,
   ⟨"controller_thread", 126, Resource.maskRegistry, false, true⟩,
   ⟨"controller_thread", 129, Resource.pendingSet, false, true⟩,
   ⟨"controller_thread", 140, Resource.pendingSet, false, true⟩,
   ⟨"controller_thread", 142, Resource.maskRegistry, false, true⟩,
   ⟨"controller_thread", 143, Resource.maskRegistry, false, true⟩,
   ⟨"controller_thread", 144, Resource.maskRegistry, false, true⟩,
   ⟨"controller_thread", 155, Resource.pendingSet, false, true⟩,
   ⟨"controller_thread", 156, Resource.pendingSet, true, true⟩,
   ⟨"user_input_thread", 202, Resource.maskRegistry, true, false⟩,
   ⟨"user_input_thread", 203, Resource.maskRegistry, true, false⟩,
   ⟨"user_input_thread", 204, Resource.maskRegistry, true, false⟩,
   ⟨"user_input_thread", 209, Resource.maskRegistry, true, false⟩,
   ⟨"user_input_thread", 210, Resource.maskRegistry, true, false⟩,
   ⟨"user_input_thread", 211, Resource.maskRegistry, true, false⟩,
   ⟨"user_input_thread", 217, Resource.maskRegistry, false, true⟩,
   ⟨"user_input_thread", 218, Resource.maskRegistry, false, true⟩,
   ⟨"user_input_thread", 219, Resource.maskRegistry, false, true⟩,
   ⟨"user_input_thread", 220, Resource.pendingSet, false, true⟩]

/-- Service order between two serviced events: the earlier one has the
strictly higher device priority, or the same device and the strictly
smaller sequence number. -/
def serviceAfter (b c : InterruptEvent) : Prop :=
  c.dev.val < b.dev.val ∨ (b.dev = c.dev ∧ b.seq < c.seq)

/-- Repeated selecting-and-removing: the sequence of events the
controller extracts from a fixed pending list (fuel-bounded, fuel
`p.length` drains everything selectable). -/
def drain (m : Masks) : Nat → List InterruptEvent → List InterruptEvent
  | 0, _ => []
  | fuel + 1, p =>
    match selectBest m p with
    | none => []
    | some (j, b) => b :: drain m fuel (p.eraseIdx j)

/-- The invariant of the trace semantics: the pending list is a
sublist of the insertion history (same relative order), the insertion
history carries strictly increasing sequence numbers bounded by the
global counter, and the insertion history is a permutation of serviced
events plus pending events. -/
def StateInv (st : TraceState) : Prop :=
  List.Sublist st.pending st.inserted ∧
  (st.inserted.map InterruptEvent.seq).Pairwise (· < ·) ∧
  (∀ e ∈ st.inserted, e.seq ≤ st.global_seq) ∧
  st.inserted.Perm (st.serviced ++ st.pending)

/-! ### Basic facts about devices and the replacement test -/

lemma Device.val_inj (d e : Device) : d.val = e.val ↔ d = e := by
  cases d <;> cases e <;> simp [Device.val]

lemma beats_irrefl (e : InterruptEvent) : beats e e = false := by
  simp [beats]

lemma beats_eq_false_iff (e b : InterruptEvent) :
    beats e b = false ↔ e.dev.val ≤ b.dev.val ∧ (e.dev = b.dev → b.seq ≤ e.seq) := by
  unfold beats
  by_cases h1 : b.dev.val < e.dev.val
  · simp [h1]
  · by_cases h2 : e.dev = b.dev
    · by_cases h3 : e.seq < b.seq
      · simp [h1, h2, h3]
      · simp [h1, h2, h3]
        omega
    · simp [h1, h2]
      omega

lemma beats_eq_true_iff (e b : InterruptEvent) :
    beats e b = true ↔ b.dev.val < e.dev.val ∨ (e.dev = b.dev ∧ e.seq < b.seq) := by
  simp [beats]

lemma beats_false_of_beats (e b x : InterruptEvent)
    (h1 : beats e b = false) (h2 : beats x b = true) : beats e x = false := by
  rw [beats_eq_false_iff] at h1 ⊢
  rw [beats_eq_true_iff] at h2
  obtain ⟨hle, himp⟩ := h1
  rcases h2 with hlt | ⟨hdev, hseq⟩
  · refine ⟨by omega, fun hd => ?_⟩
    have : e.dev.val = x.dev.val := by rw [hd]
    omega
  · have hval : x.dev.val = b.dev.val := by rw [hdev]
    refine ⟨by omega, fun hd => ?_⟩
    have : e.dev = b.dev := hd.trans hdev
    have := himp this
    omega

/-! ### Decomposition of a list at a valid index -/

lemma getElem?_some_decomp {α : Type} (l : List α) (j : Nat) (b : α)
    (h : l[j]? = some b) :
    l = l.take j ++ b :: l.drop (j + 1) ∧ l.eraseIdx j = l.take j ++ l.drop (j + 1) := by
  induction l generalizing j with
  | nil => simp at h
  | cons a t ih =>
    cases j with
    | zero =>
      rw [List.getElem?_cons_zero] at h
      injection h with h
      subst h
      constructor
      · simp
      · simp [List.eraseIdx]
    | succ n =>
      rw [List.getElem?_cons_succ] at h
      obtain ⟨h1, h2⟩ := ih n h
      constructor
      · rw [List.take_succ_cons, List.drop_succ_cons, List.cons_append]
        exact congrArg (List.cons a) h1
      · rw [List.eraseIdx_cons_succ, List.take_succ_cons, List.drop_succ_cons,
          List.cons_append]
        exact congrArg (List.cons a) h2

lemma mem_of_getElem?_some {α : Type} (l : List α) (j : Nat) (b : α)
    (h : l[j]? = some b) : b ∈ l := by
  obtain ⟨h1, _⟩ := getElem?_some_decomp l j b h
  rw [h1]
  simp

lemma perm_cons_eraseIdx {α : Type} (l : List α) (j : Nat) (b : α)
    (h : l[j]? = some b) : l.Perm (b :: l.eraseIdx j) := by
  obtain ⟨h1, h2⟩ := getElem?_some_decomp l j b h
  rw [h2]
  have hmid := @List.perm_middle _ b (l.take j) (l.drop (j + 1))
  rw [← h1] at hmid
  exact hmid

lemma getElem?_append_length {α : Type} (l1 : List α) (a : α) (l2 : List α) :
    (l1 ++ a :: l2)[l1.length]? = some a := by
  induction l1 with
  | nil => simp
  | cons x t ih => simpa using ih

/-! ### Properties of the selection scan -/

lemma scanAux_some_isSome (m : Masks) :
    ∀ (l : List InterruptEvent) (x : Nat × InterruptEvent) (i : Nat),
      (scanAux m (some x) i l).isSome = true := by
  intro l
  induction l with
  | nil => intro x i; rfl
  | cons e rest ih =>
    intro x i
    obtain ⟨bi, b⟩ := x
    cases hm : is_masked m e.dev
    · cases hb : beats e b
      · simpa [scanAux, hm, hb] using ih (bi, b) (i + 1)
      · simpa [scanAux, hm, hb] using ih (i, e) (i + 1)
    · simpa [scanAux, hm] using ih (bi, b) (i + 1)

lemma scanAux_none_isSome (m : Masks) :
    ∀ (l : List InterruptEvent) (i : Nat) (e0 : InterruptEvent),
      e0 ∈ l → is_masked m e0.dev = false → (scanAux m none i l).isSome = true := by
  intro l
  induction l with
  | nil => intro i e0 h; cases h
  | cons e rest ih =>
    intro i e0 hmem hunm
    cases hm : is_masked m e.dev
    · simpa [scanAux, hm] using scanAux_some_isSome m rest (i, e) (i + 1)
    · rcases List.mem_cons.mp hmem with h | h
      · subst h
        rw [hunm] at hm
        cases hm
      · simpa [scanAux, hm] using ih (i + 1) e0 h hunm

lemma scanAux_none_of_all_masked (m : Masks) :
    ∀ (l : List InterruptEvent) (i : Nat),
      (∀ e ∈ l, is_masked m e.dev = true) → scanAux m none i l = none := by
  intro l
  induction l with
  | nil => intro i _; rfl
  | cons e rest ih =>
    intro i hall
    have hm : is_masked m e.dev = true := hall e (List.mem_cons_self e rest)
    simpa [scanAux, hm] using ih (i + 1) (fun x hx => hall x (List.mem_cons_of_mem e hx))

lemma selectBest_eq_none_iff (m : Masks) (p : List InterruptEvent) :
    selectBest m p = none ↔ ∀ e ∈ p, is_masked m e.dev = true := by
  constructor
  · intro h e he
    by_contra hx
    have hx' : is_masked m e.dev = false := by
      cases hval : is_masked m e.dev
      · rfl
      · exact absurd hval hx
    have := scanAux_none_isSome m p 0 e he hx'
    rw [show scanAux m none 0 p = selectBest m p from rfl, h] at this
    cases this
  · intro hall
    exact scanAux_none_of_all_masked m p 0 hall

/-- Loop invariant of the scan, processed list made explicit: starting
from an accumulator that is a valid, unmasked, undominated best for the
already-seen prefix, the scan returns a valid, unmasked best that no
unmasked event of the whole list beats. -/
lemma scanAux_spec (m : Masks) :
    ∀ (l seen : List InterruptEvent) (acc : Option (Nat × InterruptEvent)),
      (∀ jb : Nat × InterruptEvent, acc = some jb →
        (seen ++ l)[jb.1]? = some jb.2 ∧ is_masked m jb.2.dev = false ∧
        ∀ x ∈ seen, is_masked m x.dev = false → beats x jb.2 = false) →
      (acc = none → ∀ x ∈ seen, is_masked m x.dev = true) →
      ∀ j b, scanAux m acc seen.length l = some (j, b) →
        (seen ++ l)[j]? = some b ∧ is_masked m b.dev = false ∧
        ∀ x ∈ seen ++ l, is_masked m x.dev = false → beats x b = false := by
  intro l
  induction l with
  | nil =>
    intro seen acc hsome hnone j b hres
    simp only [scanAux] at hres
    obtain ⟨h1, h2, h3⟩ := hsome (j, b) hres
    simp only [List.append_nil] at h1 h3 ⊢
    exact ⟨h1, h2, h3⟩
  | cons e rest ih =>
    intro seen acc hsome hnone j b hres
    have hlen : seen.length + 1 = (seen ++ [e]).length := by simp
    have happ : (seen ++ [e]) ++ rest = seen ++ e :: rest := by simp
    cases hm : is_masked m e.dev with
    | true =>
      simp only [scanAux, hm, if_true] at hres
      rw [hlen] at hres
      have hyp1 : ∀ jb : Nat × InterruptEvent, acc = some jb →
          ((seen ++ [e]) ++ rest)[jb.1]? = some jb.2 ∧ is_masked m jb.2.dev = false ∧
          ∀ x ∈ seen ++ [e], is_masked m x.dev = false → beats x jb.2 = false := by
        intro jb hacc
        obtain ⟨h1, h2, h3⟩ := hsome jb hacc
        refine ⟨by rw [happ]; exact h1, h2, ?_⟩
        intro x hx hxu
        rcases List.mem_append.mp hx with hx' | hx'
        · exact h3 x hx' hxu
        · have hxe : x = e := by simpa using hx'
          rw [hxe] at hxu
          rw [hxu] at hm
          exact Bool.noConfusion hm
      have hyp2 : acc = none → ∀ x ∈ seen ++ [e], is_masked m x.dev = true := by
        intro hacc x hx
        rcases List.mem_append.mp hx with hx' | hx'
        · exact hnone hacc x hx'
        · have hxe : x = e := by simpa using hx'
          rw [hxe]
          exact hm
      have res := ih (seen ++ [e]) acc hyp1 hyp2 j b hres
      rw [happ] at res
      exact res
    | false =>
      cases acc with
      | none =>
        simp only [scanAux, hm, Bool.false_eq_true, if_false] at hres
        rw [hlen] at hres
        have hyp1 : ∀ jb : Nat × InterruptEvent, some (seen.length, e) = some jb →
            ((seen ++ [e]) ++ rest)[jb.1]? = some jb.2 ∧ is_masked m jb.2.dev = false ∧
            ∀ x ∈ seen ++ [e], is_masked m x.dev = false → beats x jb.2 = false := by
          intro jb hacc
          injection hacc with hacc
          subst hacc
          refine ⟨by rw [happ]; exact getElem?_append_length seen e rest, hm, ?_⟩
          intro x hx hxu
          rcases List.mem_append.mp hx with hx' | hx'
          · have := hnone rfl x hx'
            rw [hxu] at this
            exact Bool.noConfusion this
          · have hxe : x = e := by simpa using hx'
            rw [hxe]
            exact beats_irrefl e
        have hyp2 : some (seen.length, e) = none →
            ∀ x ∈ seen ++ [e], is_masked m x.dev = true := by
          intro hacc
          exact absurd hacc (by simp)
        have res := ih (seen ++ [e]) (some (seen.length, e)) hyp1 hyp2 j b hres
        rw [happ] at res
        exact res
      | some x =>
        obtain ⟨bi, bb⟩ := x
        obtain ⟨hb1, hb2, hb3⟩ := hsome (bi, bb) rfl
        cases hbeat : beats e bb with
        | true =>
          simp only [scanAux, hm, Bool.false_eq_true, if_false, hbeat, if_true] at hres
          rw [hlen] at hres
          have hyp1 : ∀ jb : Nat × InterruptEvent, some (seen.length, e) = some jb →
              ((seen ++ [e]) ++ rest)[jb.1]? = some jb.2 ∧ is_masked m jb.2.dev = false ∧
              ∀ x ∈ seen ++ [e], is_masked m x.dev = false → beats x jb.2 = false := by
            intro jb hacc
            injection hacc with hacc
            subst hacc
            refine ⟨by rw [happ]; exact getElem?_append_length seen e rest, hm, ?_⟩
            intro x hx hxu
            rcases List.mem_append.mp hx with hx' | hx'
            · exact beats_false_of_beats x bb e (hb3 x hx' hxu) hbeat
            · have hxe : x = e := by simpa using hx'
              rw [hxe]
              exact beats_irrefl e
          have hyp2 : some (seen.length, e) = none →
              ∀ x ∈ seen ++ [e], is_masked m x.dev = true := by
            intro hacc
            exact absurd hacc (by simp)
          have res := ih (seen ++ [e]) (some (seen.length, e)) hyp1 hyp2 j b hres
          rw [happ] at res
          exact res
        | false =>
          simp only [scanAux, hm, Bool.false_eq_true, if_false, hbeat] at hres
          rw [hlen] at hres
          have hyp1 : ∀ jb : Nat × InterruptEvent, some (bi, bb) = some jb →
              ((seen ++ [e]) ++ rest)[jb.1]? = some jb.2 ∧ is_masked m jb.2.dev = false ∧
              ∀ x ∈ seen ++ [e], is_masked m x.dev = false → beats x jb.2 = false := by
            intro jb hacc
            injection hacc with hacc
            subst hacc
            refine ⟨by rw [happ]; exact hb1, hb2, ?_⟩
            intro x hx hxu
            rcases List.mem_append.mp hx with hx' | hx'
            · exact hb3 x hx' hxu
            · have hxe : x = e := by simpa using hx'
              rw [hxe]
              exact hbeat
          have hyp2 : some (bi, bb) = none →
              ∀ x ∈ seen ++ [e], is_masked m x.dev = true := by
            intro hacc
            exact absurd hacc (by simp)
          have res := ih (seen ++ [e]) (some (bi, bb)) hyp1 hyp2 j b hres
          rw [happ] at res
          exact res

/-- The scan returns a valid index, an unmasked event, and an event no
unmasked pending event beats. -/
lemma selectBest_spec (m : Masks) (p : List InterruptEvent) (j : Nat)
    (b : InterruptEvent) (h : selectBest m p = some (j, b)) :
    p[j]? = some b ∧ is_masked m b.dev = false ∧
    ∀ x ∈ p, is_masked m x.dev = false → beats x b = false := by
  have hres : scanAux m none (List.length ([] : List InterruptEvent)) p = some (j, b) := h
  have res := scanAux_spec m p [] none
    (by intro jb hacc; simp at hacc) (by intro _ x hx; cases hx) j b hres
  simpa using res

lemma is_masked_noMasks (d : Device) : is_masked noMasks d = false := by
  cases d <;> rfl

lemma seq_ne_of_nodup (p : List InterruptEvent)
    (hnd : (p.map InterruptEvent.seq).Nodup) (a b : InterruptEvent)
    (ha : a ∈ p) (hb : b ∈ p) (hne : a ≠ b) : a.seq ≠ b.seq :=
  fun h => hne (List.inj_on_of_nodup_map hnd ha hb h)

/-- With pairwise distinct sequence numbers, an unmasked event the best
does not beat is strictly below it: lower device priority, or same
device and strictly larger sequence number. -/
lemma strict_dominance (p : List InterruptEvent)
    (hnd : (p.map InterruptEvent.seq).Nodup) (b x : InterruptEvent)
    (hb : b ∈ p) (hx : x ∈ p) (hne : x ≠ b) (hbeats : beats x b = false) :
    x.dev.val < b.dev.val ∨ (x.dev = b.dev ∧ b.seq < x.seq) := by
  rw [beats_eq_false_iff] at hbeats
  obtain ⟨hle, himp⟩ := hbeats
  by_cases hd : x.dev = b.dev
  · right
    refine ⟨hd, ?_⟩
    have h1 := himp hd
    have h2 : x.seq ≠ b.seq := seq_ne_of_nodup p hnd x b hx hb hne
    omega
  · left
    have : x.dev.val ≠ b.dev.val := fun hv => hd ((Device.val_inj x.dev b.dev).mp hv)
    omega

lemma drain_mem (m : Masks) :
    ∀ (fuel : Nat) (p : List InterruptEvent) (e : InterruptEvent),
      e ∈ drain m fuel p → e ∈ p := by
  intro fuel
  induction fuel with
  | zero => intro p e h; simp [drain] at h
  | succ n ih =>
    intro p e h
    simp only [drain] at h
    cases hsel : selectBest m p with
    | none =>
      rw [hsel] at h
      simp at h
    | some x =>
      obtain ⟨j, b⟩ := x
      rw [hsel] at h
      simp only [List.mem_cons] at h
      rcases h with h | h
      · rw [h]
        exact mem_of_getElem?_some p j b (selectBest_spec m p j b hsel).1
      · exact (List.eraseIdx_sublist p j).subset (ih (p.eraseIdx j) e h)

/-- Repeated selecting-and-removing emits events in strict service
order, provided the pending sequence numbers are pairwise distinct and
every pending device is unmasked. -/
lemma drain_pairwise (m : Masks) :
    ∀ (fuel : Nat) (p : List InterruptEvent),
      (p.map InterruptEvent.seq).Nodup →
      (∀ e ∈ p, is_masked m e.dev = false) →
      (drain m fuel p).Pairwise serviceAfter := by
  intro fuel
  induction fuel with
  | zero => intro p _ _; simp [drain]
  | succ n ih =>
    intro p hnd hunm
    simp only [drain]
    cases hsel : selectBest m p with
    | none =>
      exact List.Pairwise.nil
    | some x =>
      obtain ⟨j, b⟩ := x
      show List.Pairwise serviceAfter (b :: drain m n (p.eraseIdx j))
      obtain ⟨hj, hbm, hdom⟩ := selectBest_spec m p j b hsel
      obtain ⟨hdecomp, herase⟩ := getElem?_some_decomp p j b hj
      have hb_mem : b ∈ p := mem_of_getElem?_some p j b hj
      have hsubl : (p.eraseIdx j).Sublist p := List.eraseIdx_sublist p j
      have hnd' : ((p.eraseIdx j).map InterruptEvent.seq).Nodup :=
        List.Nodup.sublist (hsubl.map InterruptEvent.seq) hnd
      have hb_not : b ∉ p.eraseIdx j := by
        have hpnd : p.Nodup := List.Nodup.of_map InterruptEvent.seq hnd
        rw [hdecomp] at hpnd
        have hmid := List.nodup_middle.mp hpnd
        rw [herase]
        exact (List.nodup_cons.mp hmid).1
      rw [List.pairwise_cons]
      constructor
      · intro c hc
        have hc' : c ∈ p.eraseIdx j := drain_mem m n (p.eraseIdx j) c hc
        have hcp : c ∈ p := hsubl.subset hc'
        have hcb : c ≠ b := fun h => hb_not (h ▸ hc')
        have hstrict := strict_dominance p hnd b c hb_mem hcp hcb (hdom c hcp (hunm c hcp))
        rcases hstrict with h | ⟨h1, h2⟩
        · exact Or.inl h
        · exact Or.inr ⟨h1.symm, h2⟩
      · exact ih (p.eraseIdx j) hnd' (fun e he => hunm e (hsubl.subset he))

/-! ### The trace invariant -/

lemma stateInv_init : StateInv initState := by
  refine ⟨List.Sublist.refl _, ?_, ?_, ?_⟩ <;> simp [initState]

lemma stateInv_applyOp (op : Op) (st : TraceState) (h : StateInv st) :
    StateInv (applyOp op st) := by
  obtain ⟨hsub, hpw, hbound, hperm⟩ := h
  cases op with
  | insert d =>
    simp only [applyOp, insertEvent]
    refine ⟨hsub.append (List.Sublist.refl _), ?_, ?_, ?_⟩
    · rw [List.map_append, List.pairwise_append]
      refine ⟨hpw, by simp, ?_⟩
      intro a ha c hc
      simp only [List.map_cons, List.map_nil, List.mem_singleton] at hc
      rw [List.mem_map] at ha
      obtain ⟨x, hx, hxa⟩ := ha
      have hxb := hbound x hx
      subst hxa
      subst hc
      omega
    · intro e he
      rw [List.mem_append] at he
      rcases he with he | he
      · exact le_trans (hbound e he) (Nat.le_succ _)
      · have he' : e = ⟨d, st.global_seq + 1⟩ := by simpa using he
        rw [he']
    · rw [← List.append_assoc]
      exact List.Perm.append_right _ hperm
  | select =>
    simp only [applyOp, selectStep]
    cases hsel : selectBest st.masks st.pending with
    | none =>
      exact ⟨hsub, hpw, hbound, hperm⟩
    | some x =>
      obtain ⟨j, b⟩ := x
      show StateInv
        { pending := st.pending.eraseIdx j, masks := st.masks,
          global_seq := st.global_seq, inserted := st.inserted,
          serviced := st.serviced ++ [b] }
      obtain ⟨hj, hj2, hj3⟩ := selectBest_spec st.masks st.pending j b hsel
      refine ⟨(List.eraseIdx_sublist st.pending j).trans hsub, hpw, hbound, ?_⟩
      have hp : st.pending.Perm (b :: st.pending.eraseIdx j) :=
        perm_cons_eraseIdx st.pending j b hj
      have h1 : st.inserted.Perm (st.serviced ++ (b :: st.pending.eraseIdx j)) :=
        hperm.trans (List.Perm.append_left st.serviced hp)
      have h2 : st.serviced ++ (b :: st.pending.eraseIdx j) =
          (st.serviced ++ [b]) ++ st.pending.eraseIdx j := by
        rw [List.append_cons]
      rw [h2] at h1
      exact h1
  | maskSet d v =>
    cases d <;> exact ⟨hsub, hpw, hbound, hperm⟩

lemma stateInv_runOps (ops : List Op) :
    ∀ st, StateInv st → StateInv (runOps ops st) := by
  induction ops with
  | nil => intro st h; exact h
  | cons op rest ih => intro st h; exact ih (applyOp op st) (stateInv_applyOp op st h)

/-! ### The claims -/

/-- Claim C1: for every pending set with pairwise distinct sequence
numbers, the event selected by the scan is an unmasked pending event
that is strictly optimal: every other unmasked pending event has
strictly lower device priority, or the same device and a strictly
larger sequence number; consequently repeated selecting-and-removing
with no masking yields events ordered by device priority descending
and, within a device, by ascending sequence. -/
theorem selection_priority_optimal (m : Masks) (p : List InterruptEvent)
    (hnd : (p.map InterruptEvent.seq).Nodup) :
    (∀ j b, selectBest m p = some (j, b) →
      is_masked m b.dev = false ∧ b ∈ p ∧
      ∀ e ∈ p, is_masked m e.dev = false → e ≠ b →
        (e.dev.val < b.dev.val ∨ (e.dev = b.dev ∧ b.seq < e.seq))) ∧
    (drain noMasks p.length p).Pairwise serviceAfter := by
  constructor
  · intro j b hsel
    obtain ⟨hj, hbm, hdom⟩ := selectBest_spec m p j b hsel
    have hb_mem : b ∈ p := mem_of_getElem?_some p j b hj
    refine ⟨hbm, hb_mem, ?_⟩
    intro e he heu hne
    exact strict_dominance p hnd b e hb_mem he hne (hdom e he heu)
  · exact drain_pairwise noMasks p.length p hnd (fun e _ => is_masked_noMasks e.dev)

/-- Witness for C1 at Scenario A: pending Printer(seq 1), Keyboard(seq 2),
no masking. -/
theorem selection_priority_optimal_witness :
    (([⟨Device.PRINTER, 1⟩, ⟨Device.KEYBOARD, 2⟩] : List InterruptEvent).map
        InterruptEvent.seq).Nodup ∧
    ((∀ j b,
        selectBest noMasks [⟨Device.PRINTER, 1⟩, ⟨Device.KEYBOARD, 2⟩] = some (j, b) →
        is_masked noMasks b.dev = false ∧
        b ∈ ([⟨Device.PRINTER, 1⟩, ⟨Device.KEYBOARD, 2⟩] : List InterruptEvent) ∧
        ∀ e ∈ ([⟨Device.PRINTER, 1⟩, ⟨Device.KEYBOARD, 2⟩] : List InterruptEvent),
          is_masked noMasks e.dev = false → e ≠ b →
          (e.dev.val < b.dev.val ∨ (e.dev = b.dev ∧ b.seq < e.seq))) ∧
      (drain noMasks
        ([⟨Device.PRINTER, 1⟩, ⟨Device.KEYBOARD, 2⟩] : List InterruptEvent).length
        [⟨Device.PRINTER, 1⟩, ⟨Device.KEYBOARD, 2⟩]).Pairwise serviceAfter) :=
  ⟨by decide, selection_priority_optimal noMasks _ (by decide)⟩

/-- Claim C2: if device `D` is masked and some unmasked pending event
exists, the scan selects an event, the selected event is unmasked, and
its device is not `D` — regardless of the priority rank of `D`. -/
theorem masked_device_never_selected (m : Masks) (p : List InterruptEvent)
    (D : Device) (hD : is_masked m D = true)
    (hex : ∃ e ∈ p, is_masked m e.dev = false) :
    ∃ j b, selectBest m p = some (j, b) ∧ is_masked m b.dev = false ∧ b.dev ≠ D := by
  obtain ⟨e0, he0, hu⟩ := hex
  have hs : (selectBest m p).isSome = true := scanAux_none_isSome m p 0 e0 he0 hu
  obtain ⟨x, hx⟩ := Option.isSome_iff_exists.mp hs
  obtain ⟨j, b⟩ := x
  obtain ⟨hj, hbm, hdom⟩ := selectBest_spec m p j b hx
  refine ⟨j, b, hx, hbm, ?_⟩
  intro hdev
  rw [← hdev] at hD
  rw [hbm] at hD
  exact Bool.noConfusion hD

/-- Witness for C2 at Scenario B: Keyboard masked, pending
Keyboard(seq 1) and Mouse(seq 2); Mouse is selected although Keyboard
outranks it. -/
theorem masked_device_never_selected_witness :
    is_masked ⟨true, false, false⟩ Device.KEYBOARD = true ∧
    (∃ e ∈ ([⟨Device.KEYBOARD, 1⟩, ⟨Device.MOUSE, 2⟩] : List InterruptEvent),
      is_masked ⟨true, false, false⟩ e.dev = false) ∧
    (∃ j b, selectBest ⟨true, false, false⟩
        [⟨Device.KEYBOARD, 1⟩, ⟨Device.MOUSE, 2⟩] = some (j, b) ∧
      is_masked ⟨true, false, false⟩ b.dev = false ∧ b.dev ≠ Device.KEYBOARD) :=
  ⟨by decide, by decide,
    masked_device_never_selected ⟨true, false, false⟩
      [⟨Device.KEYBOARD, 1⟩, ⟨Device.MOUSE, 2⟩] Device.KEYBOARD
      (by decide) (by decide)⟩

/-- Claim C3: along any sequence of insertions, selections and mask
commands from the initial state, the insertion history carries strictly
increasing sequence numbers (each insertion exceeds all previously
assigned ones), hence pending sequence numbers are pairwise distinct
and strictly increasing in insertion order; every assigned number is
bounded by the counter, so the next insertion strictly exceeds all. -/
theorem sequence_numbers_strictly_increasing (ops : List Op) :
    (((runOps ops initState).inserted.map InterruptEvent.seq).Pairwise (· < ·)) ∧
    (((runOps ops initState).pending.map InterruptEvent.seq).Pairwise (· < ·)) ∧
    (∀ e ∈ (runOps ops initState).inserted,
      e.seq ≤ (runOps ops initState).global_seq) ∧
    (∀ (d : Device), ∀ e ∈ (runOps ops initState).inserted,
      e.seq < InterruptEvent.seq ⟨d, (runOps ops initState).global_seq + 1⟩) := by
  obtain ⟨hsub, hpw, hbound, hperm⟩ := stateInv_runOps ops initState stateInv_init
  exact ⟨hpw, List.Pairwise.sublist (hsub.map InterruptEvent.seq) hpw, hbound,
    fun d e he => Nat.lt_succ_of_le (hbound e he)⟩

/-- Claim C7: over any run, the multiset of events ever inserted equals
the disjoint union of the serviced events and the events still pending;
moreover no event is serviced twice (serviced sequence numbers are
pairwise distinct). -/
theorem inserted_eq_serviced_plus_pending (ops : List Op) :
    ((runOps ops initState).inserted : Multiset InterruptEvent) =
      ((runOps ops initState).serviced : Multiset InterruptEvent) +
      ((runOps ops initState).pending : Multiset InterruptEvent) ∧
    ((runOps ops initState).serviced.map InterruptEvent.seq).Nodup := by
  obtain ⟨hsub, hpw, hbound, hperm⟩ := stateInv_runOps ops initState stateInv_init
  constructor
  · rw [Multiset.coe_add]
    exact Multiset.coe_eq_coe.mpr hperm
  · have hnd : ((runOps ops initState).inserted.map InterruptEvent.seq).Nodup :=
      hpw.imp Nat.ne_of_lt
    have hperm2 := hperm.map InterruptEvent.seq
    rw [List.map_append] at hperm2
    have hnd2 := hperm2.nodup_iff.mp hnd
    exact (List.nodup_append.mp hnd2).1

/-- Claim C5: when the pending set is non-empty and every pending
device is masked, the controller pass selects nothing, removes nothing,
emits one diagnostic per masked pending event, and enters the bounded
(200 ms) wait before restarting. -/
theorem all_masked_selects_nothing (m : Masks) (p : List InterruptEvent)
    (hne : p ≠ []) (hall : ∀ e ∈ p, is_masked m e.dev = true) :
    controllerStep true true m p = (CtrlAction.maskedWait (maskedDiagnostics m p), p) ∧
    (maskedDiagnostics m p).length = p.length ∧
    maskedWaitTimeoutMs = 200 := by
  have hsel : selectBest m p = none := (selectBest_eq_none_iff m p).mpr hall
  refine ⟨?_, ?_, rfl⟩
  · simp [controllerStep, hne, hsel]
  · unfold maskedDiagnostics
    rw [List.filter_eq_self.mpr hall, List.length_map]

/-- Witness for C5 at Scenario D: all three devices masked with one
pending event each. -/
theorem all_masked_selects_nothing_witness :
    (([⟨Device.KEYBOARD, 1⟩, ⟨Device.MOUSE, 2⟩, ⟨Device.PRINTER, 3⟩] :
        List InterruptEvent) ≠ []) ∧
    (∀ e ∈ ([⟨Device.KEYBOARD, 1⟩, ⟨Device.MOUSE, 2⟩, ⟨Device.PRINTER, 3⟩] :
        List InterruptEvent), is_masked ⟨true, true, true⟩ e.dev = true) ∧
    (controllerStep true true ⟨true, true, true⟩
        [⟨Device.KEYBOARD, 1⟩, ⟨Device.MOUSE, 2⟩, ⟨Device.PRINTER, 3⟩] =
      (CtrlAction.maskedWait (maskedDiagnostics ⟨true, true, true⟩
          [⟨Device.KEYBOARD, 1⟩, ⟨Device.MOUSE, 2⟩, ⟨Device.PRINTER, 3⟩]),
        [⟨Device.KEYBOARD, 1⟩, ⟨Device.MOUSE, 2⟩, ⟨Device.PRINTER, 3⟩]) ∧
      (maskedDiagnostics ⟨true, true, true⟩
        [⟨Device.KEYBOARD, 1⟩, ⟨Device.MOUSE, 2⟩, ⟨Device.PRINTER, 3⟩]).length =
        ([⟨Device.KEYBOARD, 1⟩, ⟨Device.MOUSE, 2⟩, ⟨Device.PRINTER, 3⟩] :
          List InterruptEvent).length ∧
      maskedWaitTimeoutMs = 200) :=
  ⟨by decide, by decide,
    all_masked_selects_nothing ⟨true, true, true⟩
      [⟨Device.KEYBOARD, 1⟩, ⟨Device.MOUSE, 2⟩, ⟨Device.PRINTER, 3⟩]
      (by decide) (by decide)⟩

/-- Claim C6 counterexample: when the shutdown flag is observed false at
the top of the loop (line 113) the controller stops even though the
pending set is non-empty, refuting that it stops exactly when shutdown
is requested and the pending set is empty. -/
theorem arbiter_stops_with_pending_counterexample :
    (controllerStep false true noMasks [⟨Device.KEYBOARD, 1⟩]).1 = CtrlAction.stopped ∧
    ([⟨Device.KEYBOARD, 1⟩] : List InterruptEvent) ≠ [] := by
  decide

/-- Claim C6 (amended): the controller pass has no failure exit; it
stops exactly when shutdown has been requested — observed either at the
top of the loop (any pending content), or at the wait with the pending
set empty (line 116).  In particular shutdown requested with an empty
pending set always stops, and no stop happens without shutdown. -/
theorem arbiter_stop_iff (r1 r2 : Bool) (m : Masks) (p : List InterruptEvent) :
    (controllerStep r1 r2 m p).1 = CtrlAction.stopped ↔
      (r1 = false ∨ (r2 = false ∧ p = [])) := by
  cases r1 with
  | false => simp [controllerStep]
  | true =>
    by_cases hp : p = []
    · cases r2 <;> simp [controllerStep, hp]
    · cases hsel : selectBest m p with
      | none => simp [controllerStep, hp, hsel]
      | some x =>
        obtain ⟨j, b⟩ := x
        simp [controllerStep, hp, hsel]

/-- Claim C9: when the shutdown flag flips after the pass began (read
true at the top, false at the wait) with a non-empty pending set, the
controller does not stop: the line-116 break needs the pending set
empty as well, so the pass runs, and whenever the scan selects an event
that event is serviced and removed; only the next pass, reading the
flag at the top, stops. -/
theorem shutdown_midpass_completes_selection (m : Masks) (p : List InterruptEvent)
    (hne : p ≠ []) :
    (controllerStep true false m p).1 ≠ CtrlAction.stopped ∧
    (∀ j b, selectBest m p = some (j, b) →
      controllerStep true false m p = (CtrlAction.serviced b, p.eraseIdx j)) ∧
    (∀ (r2 : Bool) (m2 : Masks) (p2 : List InterruptEvent),
      (controllerStep false r2 m2 p2).1 = CtrlAction.stopped) := by
  refine ⟨?_, ?_, ?_⟩
  · cases hsel : selectBest m p with
    | none => simp [controllerStep, hne, hsel]
    | some x =>
      obtain ⟨j, b⟩ := x
      simp [controllerStep, hne, hsel]
  · intro j b hsel
    simp [controllerStep, hne, hsel]
  · intro r2 m2 p2
    simp [controllerStep]

/-- Witness for C9: one pending Mouse event, flag flipped during the
wait. -/
theorem shutdown_midpass_completes_selection_witness :
    (([⟨Device.MOUSE, 5⟩] : List InterruptEvent) ≠ []) ∧
    ((controllerStep true false noMasks [⟨Device.MOUSE, 5⟩]).1 ≠ CtrlAction.stopped ∧
     (∀ j b, selectBest noMasks [⟨Device.MOUSE, 5⟩] = some (j, b) →
       controllerStep true false noMasks [⟨Device.MOUSE, 5⟩] =
         (CtrlAction.serviced b, ([⟨Device.MOUSE, 5⟩] : List InterruptEvent).eraseIdx j)) ∧
     (∀ (r2 : Bool) (m2 : Masks) (p2 : List InterruptEvent),
       (controllerStep false r2 m2 p2).1 = CtrlAction.stopped)) :=
  ⟨by decide, shutdown_midpass_completes_selection noMasks _ (by decide)⟩

/-- Claim C4: the lock discipline the specification prescribes does not
hold in the source — the command interface writes the mask flags (line
202 among others) without holding the arbitration lock `mtx`, so the
access table falsifies the every-access-holds-the-lock property. -/
theorem mask_mutation_without_lock :
    ((⟨"user_input_thread", 202, Resource.maskRegistry, true, false⟩ :
        SharedAccess) ∈ sharedAccesses) ∧
    sharedAccesses.all (fun a => a.holdsArbitrationLock) = false := by
  decide

/-- Claim C8: the append-log operation always returns `Except.ok`: a
failed file open is swallowed (the line is dropped) and a successful
open appends the line; no failure is ever propagated. -/
theorem append_log_never_fails :
    ∀ (file_ok : Bool) (log : List String) (line : String),
      (∃ out, append_log file_ok log line = Except.ok out) ∧
      append_log false log line = Except.ok log ∧
      append_log true log line = Except.ok (log ++ [line]) := by
  intro file_ok log line
  refine ⟨?_, rfl, rfl⟩
  cases file_ok
  · exact ⟨log, rfl⟩
  · exact ⟨log ++ [line], rfl⟩

/-- Claim C10: a mask or unmask command naming an unknown device leaves
the mask flags, the running flag and the pending set unchanged and only
prints the usage message, yet still signals the controller wake
channel. -/
theorem unknown_device_command_inert_but_notifies (which : String) (m : Masks)
    (r : Bool) (p : List InterruptEvent)
    (hk : which ≠ "k") (hm : which ≠ "m") (hp : which ≠ "p") :
    handle_command ("mask") which m r p =
      ⟨m, r, p, true, ["Unknown device. Use k/m/p."]⟩ ∧
    handle_command ("unmask") which m r p =
      ⟨m, r, p, true, ["Unknown device. Use k/m/p."]⟩ := by
  constructor <;> simp [handle_command, hk, hm, hp]

/-- Witness for C10 with the unknown device token x. -/
theorem unknown_device_command_inert_but_notifies_witness :
    (("x" : String) ≠ "k") ∧ (("x" : String) ≠ "m") ∧ (("x" : String) ≠ "p") ∧
    (handle_command ("mask") ("x") noMasks true [] =
      ⟨noMasks, true, [], true, ["Unknown device. Use k/m/p."]⟩ ∧
     handle_command ("unmask") ("x") noMasks true [] =
      ⟨noMasks, true, [], true, ["Unknown device. Use k/m/p."]⟩) :=
  ⟨by decide, by decide, by decide,
    unknown_device_command_inert_but_notifies ("x") noMasks true []
      (by decide) (by decide) (by decide)⟩

/-! ### Concrete scenario checks (spec section 8) -/

example : selectBest noMasks [⟨Device.PRINTER, 1⟩, ⟨Device.KEYBOARD, 2⟩] =
    some (1, ⟨Device.KEYBOARD, 2⟩) := by decide

example : selectBest ⟨true, false, false⟩ [⟨Device.KEYBOARD, 1⟩, ⟨Device.MOUSE, 2⟩] =
    some (1, ⟨Device.MOUSE, 2⟩) := by decide

example : drain noMasks 2 [⟨Device.MOUSE, 1⟩, ⟨Device.MOUSE, 2⟩] =
    [⟨Device.MOUSE, 1⟩, ⟨Device.MOUSE, 2⟩] := by decide

example : selectBest ⟨true, true, true⟩
    [⟨Device.KEYBOARD, 1⟩, ⟨Device.MOUSE, 2⟩, ⟨Device.PRINTER, 3⟩] = none := by decide

end InterruptSim
